import Mathlib

/-!
Verification of the reminder bot's recurrence / time-normalization engine.

This file gives a shallow embedding of the repository's date arithmetic and
reminder lifecycle and proves properties about it.

Modelling notes:

* The deployment platform (a serverless JS runtime) runs with the system
  timezone fixed to UTC, so the ECMAScript `Date` accessors (`getDate`,
  `getDay`, `getMonth`, `getFullYear`) and the corresponding setters operate
  on the UTC calendar.  Instants are modelled as `Int` epoch seconds; all the
  code's `Date` values have whole-second precision (they are built from
  `ts * 1000`), so milliseconds are dropped.
* `Math.floor(x / k)` on nonnegative `k` is floor division, matching Lean's
  `Int` division (`Int.ediv`) for positive divisors.
* `%` against literal `4`, `100`, `400` in the leap-year test agrees with
  JavaScript's remainder on the equality-with-zero tests used by the code.
* The fixed civil timezone of the bot is UTC+8 (Taipei), offset 28800 seconds.
-/

/-! ## Civil calendar core

Day-number/civil-date conversions for the proleptic Gregorian calendar,
used to model the ECMAScript `Date` object.  `civilFromDays` maps a day
number (days since 1970-01-01) to `(year, month, day)`; `daysFromCivil` is
its inverse. -/

def civilFromDays (z : Int) : Int × Int × Int :=
  let z' := z + 719468
  let era := z' / 146097
  let doe := z' % 146097
  let yoe := (doe - doe / 1460 + doe / 36524 - doe / 146096) / 365
  let y := yoe + era * 400
  let doy := doe - (365 * yoe + yoe / 4 - yoe / 100)
  let mp := (5 * doy + 2) / 153
  let d := doy - (153 * mp + 2) / 5 + 1
  let m := mp + (if mp < 10 then 3 else -9)
  (y + (if m ≤ 2 then 1 else 0), m, d)

def daysFromCivil (y m d : Int) : Int :=
  let y' := y - (if m ≤ 2 then 1 else 0)
  let era := y' / 400
  let yoe := y' - era * 400
  let doy := (153 * (if m > 2 then m - 3 else m + 9) + 2) / 5 + d - 1
  let doe := yoe * 365 + yoe / 4 - yoe / 100 + doy
  era * 146097 + doe - 719468

/-- Leap-day-corrected day count within an era: the quantity divided by 365 in
`civilFromDays` to extract the year of era. -/
def uOf (doe : Int) : Int := doe - doe / 1460 + doe / 36524 - doe / 146096

/-- Day of era on which year-of-era `y` starts (March-based years). -/
def yearStart (y : Int) : Int := 365 * y + y / 4 - y / 100 + y / 400

/-- Bounded boolean check verifying the year-extraction formula at the two
boundary days of each year of the era. -/
def checkYoe (w : Nat) : Bool :=
  let y : Int := (w : Int)
  decide (uOf (yearStart y) / 365 = y) && decide (uOf (yearStart (y + 1) - 1) / 365 = y)

/-- Divide-and-conquer evaluator for a boolean predicate on a `Nat` range,
so that large finite checks reduce with logarithmic recursion depth. -/
def allInRange (p : Nat → Bool) : Nat → Nat → Nat → Bool
  | 0, lo, hi => decide (hi ≤ lo)
  | fuel + 1, lo, hi =>
    if hi ≤ lo then true
    else if hi = lo + 1 then p lo
    else allInRange p fuel lo ((lo + hi) / 2) && allInRange p fuel ((lo + hi) / 2) hi

/-! ## ECMAScript `Date` model (system timezone = UTC)

A `Date` is an instant `t : Int` in epoch seconds.  The field accessors read
the UTC calendar; the field setters follow the ECMAScript `MakeDay`
normalization: an out-of-range day-of-month or month overflows into adjacent
months/years exactly as in JavaScript (`new Date(...).setMonth/setDate`). -/

def jsYear (t : Int) : Int := (civilFromDays (t / 86400)).1

def jsMonth (t : Int) : Int := (civilFromDays (t / 86400)).2.1 - 1

def jsGetDate (t : Int) : Int := (civilFromDays (t / 86400)).2.2

def jsGetDay (t : Int) : Int := (t / 86400 + 4) % 7

/-- ECMAScript `MakeDay`: day number of (possibly denormalized) year/0-based
month/day-of-month. -/
def mkDay (y m0 d : Int) : Int :=
  daysFromCivil (y + m0 / 12) (m0 % 12 + 1) 1 + (d - 1)

def jsSetDate (t n : Int) : Int := mkDay (jsYear t) (jsMonth t) n * 86400 + t % 86400

def jsSetMonth (t m0 : Int) : Int := mkDay (jsYear t) m0 (jsGetDate t) * 86400 + t % 86400

def jsSetFullYear (t y : Int) : Int := mkDay y (jsMonth t) (jsGetDate t) * 86400 + t % 86400

/-- ISO weekday fix-up used across the sources: `getDay() === 0 ? 7 : getDay()`. -/
def iso7 (w : Int) : Int := if w = 0 then 7 else w

/-! ## Civil instants for stating properties

`utcInstant` is the instant whose UTC reading is the given civil date-time;
`taipeiInstant` is the instant whose Taipei (UTC+8) wall-clock reading is the
given civil date-time. -/

def utcInstant (y m d hh mi ss : Int) : Int :=
  daysFromCivil y m d * 86400 + hh * 3600 + mi * 60 + ss

def taipeiInstant (y m d hh mi ss : Int) : Int :=
  utcInstant y m d hh mi ss - 28800

/-! ## JavaScript string/number helpers

Only the fragment exercised by the recurrence rules is modelled: splitting on
a separator character and converting digit strings via `Number` / `parseInt`.
The rule payloads produced by this system are plain (optionally signed)
decimal digit strings, for which these models agree with JavaScript; inputs
JavaScript would turn into `NaN` are modelled as `none`. -/

def splitOnChar (c : Char) : List Char → List (List Char)
  | [] => [[]]
  | x :: xs =>
    let r := splitOnChar c xs
    if x = c then [] :: r
    else
      match r with
      | h :: t => (x :: h) :: t
      | [] => [[x]]

def digitsToNatAux : List Char → Nat → Option Nat
  | [], acc => some acc
  | ch :: cs, acc =>
    if ch.isDigit then digitsToNatAux cs (acc * 10 + (ch.toNat - 48)) else none

/-- JavaScript `Number(s)` on the strings arising from rule payloads:
`Number("") = 0`, digit strings parse, anything else is `NaN` (`none`). -/
def jsNumber (s : List Char) : Option Int :=
  match s with
  | [] => some 0
  | '-' :: rest =>
    match rest, digitsToNatAux rest 0 with
    | _ :: _, some n => some (-(n : Int))
    | _, _ => none
  | '+' :: rest =>
    match rest, digitsToNatAux rest 0 with
    | _ :: _, some n => some ((n : Int))
    | _, _ => none
  | _ =>
    match digitsToNatAux s 0 with
    | some n => some ((n : Int))
    | none => none

/-- JavaScript `parseInt(s)`: parses an optional sign and the longest leading
digit run; no digits means `NaN` (`none`). -/
def jsParseInt (s : List Char) : Option Int :=
  match s with
  | '-' :: rest =>
    let ds := rest.takeWhile (·.isDigit)
    match ds, digitsToNatAux ds 0 with
    | _ :: _, some n => some (-(n : Int))
    | _, _ => none
  | '+' :: rest =>
    let ds := rest.takeWhile (·.isDigit)
    match ds, digitsToNatAux ds 0 with
    | _ :: _, some n => some ((n : Int))
    | _, _ => none
  | _ =>
    let ds := s.takeWhile (·.isDigit)
    match ds, digitsToNatAux ds 0 with
    | _ :: _, some n => some ((n : Int))
    | _, _ => none

/-- JavaScript `String.prototype.startsWith`. -/
def strStarts (s p : String) : Bool := p.data.isPrefixOf s.data

/-- `rule.split(':')[1].split(',').map(Number)` — the weekday list of a
`weekly:` rule.  The branch guards ensure index 1 exists whenever this is
evaluated by the code. -/
def parseDays (rule : String) : List (Option Int) :=
  ((splitOnChar ',' ((splitOnChar ':' rule.data).getD 1 [])).map jsNumber)

/-- `Number(parts[i])` where an absent element is `undefined`, hence `NaN`. -/
def jsNumberAt (parts : List (List Char)) (i : Nat) : Option Int :=
  match parts[i]? with
  | some s => jsNumber s
  | none => none

/-! ## `calculateNext` — src/time.js

Computes the next trigger time from the previous trigger time (the code's own
comment: "compute the next time from the last set time, avoiding drift").
`weeklyScan` mirrors the `while (nextDayOffset <= 7 && !found)` loop. -/

def weeklyScan (days : List (Option Int)) (cur : Int) : Nat → Int → Option Int
  | 0, _ => none
  | fuel + 1, off =>
    if days.contains (some (iso7 ((cur + off) % 7))) then some off
    else weeklyScan days cur fuel (off + 1)

def calculateNext (lastTs : Int) (rule : String) : Int :=
  if rule = "daily" then
    jsSetDate lastTs (jsGetDate lastTs + 1)
  else if strStarts rule "weekly:" then
    let days := parseDays rule
    let cur := iso7 (jsGetDay lastTs)
    match weeklyScan days cur 7 1 with
    | some off => jsSetDate lastTs (jsGetDate lastTs + off)
    | none => lastTs
  else if strStarts rule "monthly:" then
    jsSetMonth lastTs (jsMonth lastTs + 1)
  else if strStarts rule "yearly:" then
    let t2 := jsSetFullYear lastTs (jsYear lastTs + 1)
    if jsMonth t2 = 1 ∧ jsGetDate t2 = 29 ∧
        ¬(jsYear t2 % 4 = 0 ∧ (jsYear t2 % 100 ≠ 0 ∨ jsYear t2 % 400 = 0)) then
      jsSetDate t2 28
    else t2
  else lastTs

/-! ## `calculateNext` — the older variant (unnamed source file, time.js rewrite)

`weekly:` adds a flat 7 days; no weekday scan. -/

def calculateNextLegacy (lastTs : Int) (rule : String) : Int :=
  if rule = "daily" then jsSetDate lastTs (jsGetDate lastTs + 1)
  else if strStarts rule "weekly:" then jsSetDate lastTs (jsGetDate lastTs + 7)
  else if strStarts rule "monthly:" then jsSetMonth lastTs (jsMonth lastTs + 1)
  else if strStarts rule "yearly:" then jsSetFullYear lastTs (jsYear lastTs + 1)
  else lastTs

/-! ## `calculateNextFromRule` — src/main.js

This variant starts from `new Date((lastTs + 60) * 1000)`, i.e. sixty seconds
past the stored trigger.  Its weekly loop runs up to 8 steps and tests the raw
`getDay()` value (Sunday = 0) against the configured list; monthly re-sets the
day-of-month from the rule payload after the month increment; yearly re-sets
month and day from the payload.  A `NaN` result (unparsable payload) is
modelled as `none`. -/

def mainWeeklyLoop (days : List (Option Int)) : Nat → Int → Int
  | 0, t => t
  | fuel + 1, t =>
    let t2 := jsSetDate t (jsGetDate t + 1)
    if days.contains (some (jsGetDay t2)) then t2 else mainWeeklyLoop days fuel t2

def calculateNextFromRule (lastTs : Int) (rule : String) : Option Int :=
  let t := lastTs + 60
  if rule = "daily" then some (jsSetDate t (jsGetDate t + 1))
  else if strStarts rule "weekly:" then
    some (mainWeeklyLoop (parseDays rule) 8 t)
  else if strStarts rule "monthly:" then
    let t2 := jsSetMonth t (jsMonth t + 1)
    match jsParseInt ((splitOnChar ':' rule.data).getD 1 []) with
    | some d => some (jsSetDate t2 d)
    | none => none
  else if strStarts rule "yearly:" then
    let parts := splitOnChar '-' ((splitOnChar ':' rule.data).getD 1 [])
    match jsNumberAt parts 0, jsNumberAt parts 1 with
    | some m, some d =>
      some (jsSetDate (jsSetMonth (jsSetFullYear t (jsYear t + 1)) (m - 1)) d)
    | _, _ => none
  else some t

/-! ## `calculateNextFromRule` — the rewritten variant (unnamed source file)

Starts from `lastTs` itself; the weekly loop advances up to 7 days testing the
ISO-fixed weekday; yearly is checked before monthly; month/year increments do
not re-set the configured day. -/

def v2WeeklyLoop (days : List (Option Int)) : Nat → Int → Int
  | 0, t => t
  | fuel + 1, t =>
    let t2 := jsSetDate t (jsGetDate t + 1)
    if days.contains (some (iso7 (jsGetDay t2))) then t2 else v2WeeklyLoop days fuel t2

def calculateNextFromRuleV2 (lastTs : Int) (rule : String) : Int :=
  if rule = "daily" then jsSetDate lastTs (jsGetDate lastTs + 1)
  else if strStarts rule "weekly:" then v2WeeklyLoop (parseDays rule) 7 lastTs
  else if strStarts rule "yearly:" then jsSetFullYear lastTs (jsYear lastTs + 1)
  else if strStarts rule "monthly:" then jsSetMonth lastTs (jsMonth lastTs + 1)
  else lastTs

/-! ## Resolution of AI-extracted date-time strings

`DateTimeExpr` is the shallow model of a fully-qualified ISO-8601 date-time
string `YYYY-MM-DDTHH:mm:ss` with an optional explicit timezone offset
(`tzOffsetMin`, minutes east of UTC); `none` models a string carrying no
offset.  `jsDateParse` models `new Date(string)` in the UTC-timezone runtime:
an explicit offset is honoured, an offset-less date-time string is read as
local time, which on this platform is UTC. -/

structure DateTimeExpr where
  year : Int
  month : Int
  day : Int
  hour : Int
  minute : Int
  second : Int
  tzOffsetMin : Option Int
deriving DecidableEq

def jsDateParse (e : DateTimeExpr) : Int :=
  utcInstant e.year e.month e.day e.hour e.minute e.second -
    (match e.tzOffsetMin with
     | some off => off * 60
     | none => 0)

/-- src/main.js `processWithAI`: the AI's `json.time` string is passed
directly to `new Date(...)` and floored to epoch seconds. -/
def resolveMainTime (e : DateTimeExpr) : Int := jsDateParse e

/-- The rewritten task parser (unnamed source file, `processTaskWithAI`):
`json.time.replace(" ", "T") + "+08:00"` is parsed, i.e. an explicit +08:00
offset is appended to the offset-less `YYYY-MM-DD HH:mm:ss` payload.  A
string already carrying an offset would become syntactically invalid
(`Invalid Date`), modelled as `none`. -/
def resolveV2Time (e : DateTimeExpr) : Option Int :=
  match e.tzOffsetMin with
  | none => some (jsDateParse { e with tzOffsetMin := some 480 })
  | some _ => none

/-! ## Reminder store and scheduled sweeps

The `todos` table row and the mutations used by the sweep handlers.  History
inserts (`INSERT ... status = 1`) append a row with the next free id; the id
column is `AUTOINCREMENT`, modelled by `nextId`. -/

structure Todo where
  id : Int
  userId : String
  task : String
  remindAt : Int
  cronRule : Option String
  allDay : Int
  status : Int
deriving DecidableEq

structure DB where
  rows : List Todo
  nextId : Int
deriving DecidableEq

/-- Well-formedness of the table: ids are unique and below the autoincrement
counter. -/
def dbWF (db : DB) : Prop :=
  (db.rows.map (·.id)).Nodup ∧ ∀ t ∈ db.rows, t.id < db.nextId

/-- First row with the given id (`SELECT * FROM todos WHERE id = ?`). -/
def findRow (i : Int) : List Todo → Option Todo
  | [] => none
  | t :: ts => if t.id = i then some t else findRow i ts

def rowById (db : DB) (i : Int) : Option Todo := findRow i db.rows

/-- `UPDATE todos SET status = ? WHERE id = ?`. -/
def updateStatus (db : DB) (tid s : Int) : DB :=
  ⟨db.rows.map (fun t => if t.id = tid then { t with status := s } else t), db.nextId⟩

/-- `UPDATE todos SET remind_at = ? WHERE id = ?`. -/
def updateRemindAt (db : DB) (tid ts : Int) : DB :=
  ⟨db.rows.map (fun t => if t.id = tid then { t with remindAt := ts } else t), db.nextId⟩

/-- `INSERT INTO todos (user_id, task, remind_at, status) VALUES (?, ?, ?, 1)` —
the historical done-record appended when a reminder fires. -/
def insertHistory (db : DB) (uid task : String) (remindAt : Int) : DB :=
  ⟨db.rows ++ [⟨db.nextId, uid, task, remindAt, none, 0, 1⟩], db.nextId + 1⟩

/-- The observable side effect of a firing: one `bot.api.sendMessage` call. -/
structure Notification where
  tid : Int
  uid : String
  task : String
deriving DecidableEq

/-- task.js sweep, step for one reminder: one-shot reminders get a history
record and are marked done; recurring reminders get a history record carrying
the fired time and their `remind_at` advanced by `calculateNext`. -/
def fireTask (db : DB) (t : Todo) : DB :=
  match t.cronRule with
  | none => updateStatus (insertHistory db t.userId t.task t.remindAt) t.id 1
  | some rule =>
    updateRemindAt (insertHistory db t.userId t.task t.remindAt) t.id
      (calculateNext t.remindAt rule)

/-- main.js sweep, step for one reminder: one-shot reminders are marked done
(no history record); recurring reminders only get `remind_at` advanced by
`calculateNextFromRule`.  An unrepresentable (`NaN`) next time cannot be
stored in the `NOT NULL` integer column; that unreachable-with-wellformed-rules
branch is modelled as leaving the stored time unchanged. -/
def fireMain (db : DB) (t : Todo) : DB :=
  match t.cronRule with
  | none => updateStatus db t.id 1
  | some rule =>
    match calculateNextFromRule t.remindAt rule with
    | some next => updateRemindAt db t.id next
    | none => updateRemindAt db t.id t.remindAt

/-- Rewritten sweep (unnamed source file), step for one reminder: one-shot
reminders are marked done; recurring reminders get a history record and
`remind_at` advanced by `calculateNextFromRuleV2`. -/
def fireV2 (db : DB) (t : Todo) : DB :=
  match t.cronRule with
  | none => updateStatus db t.id 1
  | some rule =>
    updateRemindAt (insertHistory db t.userId t.task t.remindAt) t.id
      (calculateNextFromRuleV2 t.remindAt rule)

/-- Sweep loop whose enclosing try/catch sits outside the loop (task.js and
main.js): `ok t = false` models `sendMessage` throwing for `t`; the exception
aborts the remaining iterations, and the failing reminder's own persists
(which follow the send) are skipped. -/
def sweepLoopAbort (fire : DB → Todo → DB) (ok : Todo → Bool) :
    List Todo → DB → DB × List Notification
  | [], db => (db, [])
  | t :: ts, db =>
    if ok t then
      let db1 := fire db t
      let r := sweepLoopAbort fire ok ts db1
      (r.1, ⟨t.id, t.userId, t.task⟩ :: r.2)
    else (db, [])

/-- Sweep loop with a per-reminder try/catch (the rewritten sweep): a failing
send skips only that reminder's persists and the loop continues. -/
def sweepLoopSkip (fire : DB → Todo → DB) (ok : Todo → Bool) :
    List Todo → DB → DB × List Notification
  | [], db => (db, [])
  | t :: ts, db =>
    if ok t then
      let db1 := fire db t
      let r := sweepLoopSkip fire ok ts db1
      (r.1, ⟨t.id, t.userId, t.task⟩ :: r.2)
    else sweepLoopSkip fire ok ts db

/-- `SELECT * FROM todos WHERE status = 0 AND remind_at > 0 AND remind_at <= ?`. -/
def dueQuery (now : Int) (db : DB) : List Todo :=
  db.rows.filter (fun t => decide (t.status = 0 ∧ 0 < t.remindAt ∧ t.remindAt ≤ now))

/-- task.js pre-filter: a `weekly:` reminder is only processed when the current
Taipei ISO weekday (computed from `Date.now() + 8h`) is in its day list. -/
def weekdayPass (now : Int) (t : Todo) : Bool :=
  match t.cronRule with
  | some r =>
    if strStarts r "weekly:" then
      (parseDays r).contains (some (iso7 (jsGetDay (now + 28800))))
    else true
  | none => true

/-- task.js `processScheduledReminders`: select due reminders, filter weekly
rules by today's Taipei weekday, then notify/persist each in order inside a
single try/catch. -/
def processScheduledReminders (ok : Todo → Bool) (now : Int) (db : DB) :
    DB × List Notification :=
  sweepLoopAbort fireTask ok ((dueQuery now db).filter (weekdayPass now)) db

/-- main.js `scheduled` handler (timed-task section): no per-reminder
try/catch. -/
def scheduledMain (ok : Todo → Bool) (now : Int) (db : DB) : DB × List Notification :=
  sweepLoopAbort fireMain ok (dueQuery now db) db

/-- `SELECT * FROM todos WHERE status = 0 AND all_day = 0 AND remind_at > 0
AND remind_at <= ?` — the rewritten sweep's due query. -/
def dueQueryV2 (now : Int) (db : DB) : List Todo :=
  db.rows.filter
    (fun t => decide (t.status = 0 ∧ t.allDay = 0 ∧ 0 < t.remindAt ∧ t.remindAt ≤ now))

/-- Rewritten `scheduled` handler (unnamed source file): per-reminder
try/catch around notify + persists. -/
def scheduledV2 (ok : Todo → Bool) (now : Int) (db : DB) : DB × List Notification :=
  sweepLoopSkip fireV2 ok (dueQueryV2 now db) db

/-! ## Deletion -/

/-- src/db.js `deleteTodosByIds`:
`DELETE FROM todos WHERE id IN (...) AND user_id = ?`. -/
def deleteTodosByIds (db : DB) (ids : List Int) (userId : String) : DB :=
  ⟨db.rows.filter (fun t => !(ids.contains t.id && t.userId == userId)), db.nextId⟩

/-- The `del_` callback handler of the inline-list bot variant:
`DELETE FROM todos WHERE id = ?`.  The handler reads the requesting user's id
but does not use it in the statement. -/
def delCallback (db : DB) (_requesterId : String) (todoId : Int) : DB :=
  ⟨db.rows.filter (fun t => !(t.id == todoId)), db.nextId⟩

/-! ## Specification-side definitions

`specWeeklyNextCivil` is written from the specification's words (scan forward
day-by-day, bounded to 7 steps, until the ISO weekday *in the civil timezone*
is in the configured set, preserving the time of day), to be compared with
the code's `calculateNext`. -/

/-- ISO weekday (Monday = 1 .. Sunday = 7) of an instant read in the civil
(UTC+8) timezone. -/
def civilWeekdayISO (t : Int) : Int := iso7 (((t + 28800) / 86400 + 4) % 7)

def specWeeklyScan (days : List Int) (t : Int) : Nat → Int → Option Int
  | 0, _ => none
  | fuel + 1, off =>
    if civilWeekdayISO (t + off * 86400) ∈ days then some off
    else specWeeklyScan days t fuel (off + 1)

def specWeeklyNextCivil (days : List Int) (t : Int) : Int :=
  match specWeeklyScan days t 7 1 with
  | some off => t + off * 86400
  | none => t

/-! ## Calendar correctness -/

theorem allInRange_sound (p : Nat → Bool) :
    ∀ fuel lo hi, allInRange p fuel lo hi = true → ∀ w, lo ≤ w → w < hi → p w = true := by
  intro fuel
  induction fuel with
  | zero =>
    intro lo hi h w hw1 hw2
    simp only [allInRange, decide_eq_true_eq] at h
    omega
  | succ n ih =>
    intro lo hi h w hw1 hw2
    simp only [allInRange] at h
    split_ifs at h with h1 h2
    · omega
    · have hweq : w = lo := by omega
      rw [hweq]; exact h
    · rw [Bool.and_eq_true] at h
      by_cases hm : w < (lo + hi) / 2
      · exact ih lo ((lo + hi) / 2) h.1 w hw1 hm
      · exact ih ((lo + hi) / 2) hi h.2 w (by omega) hw2

set_option maxHeartbeats 1000000 in
theorem checkYoe_all : ∀ w : Nat, w < 400 → checkYoe w = true :=
  fun w hw => allInRange_sound checkYoe 10 0 400 (by decide) w (Nat.zero_le w) hw

theorem uOf_mono (d1 d2 : Int) (h12 : d1 ≤ d2) : uOf d1 ≤ uOf d2 := by
  unfold uOf
  omega

theorem yearCover : ∀ w : Nat, w ≤ 146096 →
    ∃ y : Nat, y ≤ 399 ∧ yearStart (y : Int) ≤ (w : Int) ∧ (w : Int) < yearStart ((y : Int) + 1) := by
  intro w
  induction w with
  | zero =>
    intro _
    refine ⟨0, by omega, ?_, ?_⟩ <;> simp [yearStart]
  | succ n ih =>
    intro hn
    obtain ⟨y, hy, hlo, hhi⟩ := ih (by omega)
    by_cases hend : ((n : Int) + 1) < yearStart ((y : Int) + 1)
    · exact ⟨y, hy, by push_cast; omega, by push_cast at hend ⊢; omega⟩
    · have hy399 : y + 1 ≤ 399 := by
        by_contra hc
        have hy400 : y = 399 := by omega
        rw [hy400] at hend
        have h400 : yearStart (((399 : Nat) : Int) + 1) = 146097 := by norm_num [yearStart]
        rw [h400] at hend
        have hn1 : ((n : Int) + 1) ≤ 146096 := by exact_mod_cast by omega
        omega
      refine ⟨y + 1, hy399, by push_cast; omega, ?_⟩
      push_cast
      push_cast at hlo hhi hend
      unfold yearStart at hlo hhi hend ⊢
      omega

/-- Characterization of the year-of-era extraction in `civilFromDays`: for a
day of era in range, the computed year of era is within 0..399 and the day
falls within 366 days of that year's start. -/
theorem yoe_correct (doe : Int) (h0 : 0 ≤ doe) (h1 : doe ≤ 146096) :
    0 ≤ uOf doe / 365 ∧ uOf doe / 365 ≤ 399 ∧
    365 * (uOf doe / 365) + (uOf doe / 365) / 4 - (uOf doe / 365) / 100 ≤ doe ∧
    doe ≤ 365 * (uOf doe / 365) + (uOf doe / 365) / 4 - (uOf doe / 365) / 100 + 365 := by
  obtain ⟨y, hy, hlo, hhi⟩ := yearCover doe.toNat (by omega)
  have hcast : ((doe.toNat : Nat) : Int) = doe := Int.toNat_of_nonneg h0
  rw [hcast] at hlo hhi
  have hchk := checkYoe_all y (by omega)
  simp only [checkYoe, Bool.and_eq_true, decide_eq_true_eq] at hchk
  obtain ⟨hc1, hc2⟩ := hchk
  have hm1 : uOf (yearStart (y : Int)) ≤ uOf doe := uOf_mono _ _ hlo
  have hm2 : uOf doe ≤ uOf (yearStart ((y : Int) + 1) - 1) := uOf_mono _ _ (by omega)
  have hd1 : uOf (yearStart (y : Int)) / 365 ≤ uOf doe / 365 :=
    Int.ediv_le_ediv (by norm_num) hm1
  have hd2 : uOf doe / 365 ≤ uOf (yearStart ((y : Int) + 1) - 1) / 365 :=
    Int.ediv_le_ediv (by norm_num) hm2
  rw [hc1] at hd1
  rw [hc2] at hd2
  have hyoe : uOf doe / 365 = (y : Int) := le_antisymm hd2 hd1
  rw [hyoe]
  have hy399 : (y : Int) ≤ 399 := by exact_mod_cast hy
  have hyn : (0 : Int) ≤ (y : Int) := by positivity
  have hkey : 365 * ((y : Int) + 1) + ((y : Int) + 1) / 4 - ((y : Int) + 1) / 100 +
      ((y : Int) + 1) / 400 ≤ 365 * (y : Int) + (y : Int) / 4 - (y : Int) / 100 + 366 := by
    omega
  unfold yearStart at hlo hhi
  refine ⟨hyn, hy399, by omega, by omega⟩

/-- Core inversion step of the calendar conversions, with the era and day of
era as free variables. -/
theorem dfc_cfd_core (era doe : Int) (h0 : 0 ≤ doe) (h1 : doe < 146097) :
    daysFromCivil
      ((doe - doe / 1460 + doe / 36524 - doe / 146096) / 365 + era * 400 +
        (if ((5 * (doe - (365 * ((doe - doe / 1460 + doe / 36524 - doe / 146096) / 365) +
              ((doe - doe / 1460 + doe / 36524 - doe / 146096) / 365) / 4 -
              ((doe - doe / 1460 + doe / 36524 - doe / 146096) / 365) / 100)) + 2) / 153 +
            (if (5 * (doe - (365 * ((doe - doe / 1460 + doe / 36524 - doe / 146096) / 365) +
              ((doe - doe / 1460 + doe / 36524 - doe / 146096) / 365) / 4 -
              ((doe - doe / 1460 + doe / 36524 - doe / 146096) / 365) / 100)) + 2) / 153 < 10
              then 3 else -9)) ≤ 2 then 1 else 0))
      ((5 * (doe - (365 * ((doe - doe / 1460 + doe / 36524 - doe / 146096) / 365) +
          ((doe - doe / 1460 + doe / 36524 - doe / 146096) / 365) / 4 -
          ((doe - doe / 1460 + doe / 36524 - doe / 146096) / 365) / 100)) + 2) / 153 +
        (if (5 * (doe - (365 * ((doe - doe / 1460 + doe / 36524 - doe / 146096) / 365) +
          ((doe - doe / 1460 + doe / 36524 - doe / 146096) / 365) / 4 -
          ((doe - doe / 1460 + doe / 36524 - doe / 146096) / 365) / 100)) + 2) / 153 < 10
          then 3 else -9))
      ((doe - (365 * ((doe - doe / 1460 + doe / 36524 - doe / 146096) / 365) +
          ((doe - doe / 1460 + doe / 36524 - doe / 146096) / 365) / 4 -
          ((doe - doe / 1460 + doe / 36524 - doe / 146096) / 365) / 100)) -
        (153 * ((5 * (doe - (365 * ((doe - doe / 1460 + doe / 36524 - doe / 146096) / 365) +
          ((doe - doe / 1460 + doe / 36524 - doe / 146096) / 365) / 4 -
          ((doe - doe / 1460 + doe / 36524 - doe / 146096) / 365) / 100)) + 2) / 153) + 2) / 5 + 1) =
    146097 * era + doe - 719468 := by
  have hu := yoe_correct doe h0 (by omega)
  simp only [uOf] at hu
  set yoe := (doe - doe / 1460 + doe / 36524 - doe / 146096) / 365 with hyoe_def
  obtain ⟨hy0, hy399, hS1, hS2⟩ := hu
  set doy := doe - (365 * yoe + yoe / 4 - yoe / 100) with hdoy_def
  have hdoy : 0 ≤ doy ∧ doy ≤ 365 := by omega
  set mp := (5 * doy + 2) / 153 with hmp_def
  have hmp : 0 ≤ mp ∧ mp ≤ 11 := by omega
  by_cases h10 : mp < 10
  · rw [if_pos h10]
    have hmle : ¬(mp + 3 ≤ 2) := by omega
    rw [if_neg hmle]
    simp only [daysFromCivil]
    have hgt : mp + 3 > 2 := by omega
    rw [if_neg hmle, if_pos hgt]
    have e1 : yoe + era * 400 + 0 - 0 = yoe + era * 400 := by ring
    rw [e1]
    have e2 : (yoe + era * 400) / 400 = era := by omega
    rw [e2]
    have e3 : yoe + era * 400 - era * 400 = yoe := by ring
    rw [e3]
    have e4 : mp + 3 - 3 = mp := by ring
    rw [e4]
    omega
  · rw [if_neg h10]
    have hmle : mp + -9 ≤ 2 := by omega
    rw [if_pos hmle]
    simp only [daysFromCivil]
    rw [if_pos hmle, if_neg (by omega : ¬(mp + -9 > 2))]
    have e1 : yoe + era * 400 + 1 - 1 = yoe + era * 400 := by ring
    rw [e1]
    have e2 : (yoe + era * 400) / 400 = era := by omega
    rw [e2]
    have e3 : yoe + era * 400 - era * 400 = yoe := by ring
    rw [e3]
    have e4 : mp + -9 + 9 = mp := by ring
    rw [e4]
    omega

/-- The civil conversions are mutually inverse: converting a day number to a
civil date and back is the identity.  This is the key fact for reasoning about
the field-based setters of the `Date` model. -/
theorem daysFromCivil_civilFromDays (z : Int) :
    daysFromCivil (civilFromDays z).1 (civilFromDays z).2.1 (civilFromDays z).2.2 = z := by
  have hsplit : 146097 * ((z + 719468) / 146097) + (z + 719468) % 146097 = z + 719468 := by
    omega
  have h0 : 0 ≤ (z + 719468) % 146097 := by omega
  have h1 : (z + 719468) % 146097 < 146097 := by omega
  have hcore := dfc_cfd_core ((z + 719468) / 146097) ((z + 719468) % 146097) h0 h1
  simp only [civilFromDays]
  omega

theorem civilFromDays_month_bounds (z : Int) :
    1 ≤ (civilFromDays z).2.1 ∧ (civilFromDays z).2.1 ≤ 12 := by
  have h0 : 0 ≤ (z + 719468) % 146097 := by omega
  have hu := yoe_correct ((z + 719468) % 146097) h0 (by omega)
  simp only [uOf] at hu
  simp only [civilFromDays]
  split_ifs <;> constructor <;> omega

theorem daysFromCivil_day_lin (y m d : Int) :
    daysFromCivil y m d = daysFromCivil y m 1 + (d - 1) := by
  simp only [daysFromCivil]
  split_ifs <;> ring

/-- `d.setDate(d.getDate() + n)` advances the instant by exactly `n` civil
days, i.e. `n * 86400` seconds (no daylight saving exists in the UTC
runtime). -/
theorem jsSetDate_add (t n : Int) :
    jsSetDate t (jsGetDate t + n) = t + n * 86400 := by
  unfold jsSetDate mkDay jsYear jsMonth jsGetDate
  obtain ⟨hm1, hm2⟩ := civilFromDays_month_bounds (t / 86400)
  have hdiv : ((civilFromDays (t / 86400)).2.1 - 1) / 12 = 0 := by omega
  have hmod : ((civilFromDays (t / 86400)).2.1 - 1) % 12 = (civilFromDays (t / 86400)).2.1 - 1 := by
    omega
  rw [hdiv, hmod]
  have e1 : (civilFromDays (t / 86400)).1 + 0 = (civilFromDays (t / 86400)).1 := by ring
  have e2 : (civilFromDays (t / 86400)).2.1 - 1 + 1 = (civilFromDays (t / 86400)).2.1 := by ring
  rw [e1, e2]
  have hrt := daysFromCivil_civilFromDays (t / 86400)
  rw [daysFromCivil_day_lin] at hrt
  omega

/-! ## Store and sweep lemmas -/
/-! helper lemmas -/

theorem findRow_map_pres (f : Todo → Todo) (hf : ∀ t, (f t).id = t.id)
    (i : Int) (l : List Todo) :
    findRow i (l.map f) = (findRow i l).map f := by
  induction l with
  | nil => rfl
  | cons a l ih =>
    simp only [List.map_cons, findRow, hf a]
    split
    · rfl
    · exact ih

theorem findRow_append (i : Int) (l1 l2 : List Todo) :
    findRow i (l1 ++ l2) = (findRow i l1).or (findRow i l2) := by
  induction l1 with
  | nil => rfl
  | cons a l ih =>
    simp only [List.cons_append, findRow]
    split
    · rfl
    · exact ih

theorem findRow_id (i : Int) (l : List Todo) (t : Todo) (h : findRow i l = some t) :
    t.id = i := by
  induction l with
  | nil => cases h
  | cons a l ih =>
    simp only [findRow] at h
    split at h
    · cases h; assumption
    · exact ih h

theorem rowById_updateStatus_ne (db : DB) (tid s i : Int) (h : i ≠ tid) :
    rowById (updateStatus db tid s) i = rowById db i := by
  unfold rowById updateStatus
  rw [findRow_map_pres _ (fun t => by split <;> rfl)]
  cases hfind : findRow i db.rows with
  | none => rfl
  | some t =>
    have hid : t.id = i := findRow_id i db.rows t hfind
    simp only [Option.map_some']
    rw [if_neg (by omega)]

theorem rowById_updateRemindAt_ne (db : DB) (tid ts i : Int) (h : i ≠ tid) :
    rowById (updateRemindAt db tid ts) i = rowById db i := by
  unfold rowById updateRemindAt
  rw [findRow_map_pres _ (fun t => by split <;> rfl)]
  cases hfind : findRow i db.rows with
  | none => rfl
  | some t =>
    have hid : t.id = i := findRow_id i db.rows t hfind
    simp only [Option.map_some']
    rw [if_neg (by omega)]

theorem rowById_insertHistory_lt (db : DB) (uid task : String) (remindAt i : Int)
    (h : i < db.nextId) :
    rowById (insertHistory db uid task remindAt) i = rowById db i := by
  unfold rowById insertHistory
  rw [findRow_append]
  cases hfind : findRow i db.rows with
  | none =>
    simp only [Option.none_or, findRow]
    rw [if_neg (by omega)]
  | some t => rfl

theorem rowById_updateStatus_eq (db : DB) (t : Todo) (s : Int)
    (hrow : rowById db t.id = some t) :
    rowById (updateStatus db t.id s) t.id = some { t with status := s } := by
  unfold rowById updateStatus
  rw [findRow_map_pres _ (fun t => by split <;> rfl)]
  unfold rowById at hrow
  rw [hrow]
  simp [Option.map_some']

theorem rowById_updateRemindAt_eq (db : DB) (t : Todo) (ts : Int)
    (hrow : rowById db t.id = some t) :
    rowById (updateRemindAt db t.id ts) t.id = some { t with remindAt := ts } := by
  unfold rowById updateRemindAt
  rw [findRow_map_pres _ (fun t => by split <;> rfl)]
  unfold rowById at hrow
  rw [hrow]
  simp [Option.map_some']

theorem findRow_of_mem (l : List Todo) (hnodup : (l.map (·.id)).Nodup)
    (t : Todo) (ht : t ∈ l) : findRow t.id l = some t := by
  induction l with
  | nil => cases ht
  | cons a l ih =>
    rcases List.mem_cons.mp ht with rfl | hmem
    · simp [findRow]
    · have ha : a.id ≠ t.id := by
        intro he
        have hmm : t.id ∈ l.map (·.id) := List.mem_map_of_mem _ hmem
        rw [List.map_cons] at hnodup
        exact (List.nodup_cons.mp hnodup).1 (he ▸ hmm)
      simp only [findRow]
      rw [if_neg (by omega)]
      exact ih (by rw [List.map_cons] at hnodup; exact (List.nodup_cons.mp hnodup).2) hmem

theorem rowById_of_mem (db : DB) (hwf : dbWF db) (t : Todo) (ht : t ∈ db.rows) :
    rowById db t.id = some t :=
  findRow_of_mem db.rows hwf.1 t ht

/-! fire/loop lemmas -/

theorem updateStatus_wf (db : DB) (tid s : Int) (h : dbWF db) : dbWF (updateStatus db tid s) := by
  obtain ⟨h1, h2⟩ := h
  constructor
  · have : (updateStatus db tid s).rows.map (·.id) = db.rows.map (·.id) := by
      unfold updateStatus
      simp only [List.map_map]
      exact List.map_congr_left (fun t _ => by dsimp; split <;> rfl)
    rw [this]; exact h1
  · intro t ht
    obtain ⟨x, hx, hfx⟩ := List.mem_map.mp ht
    have : t.id = x.id := by rw [← hfx]; split <;> rfl
    rw [this]
    exact h2 x hx

theorem updateRemindAt_wf (db : DB) (tid ts : Int) (h : dbWF db) :
    dbWF (updateRemindAt db tid ts) := by
  obtain ⟨h1, h2⟩ := h
  constructor
  · have : (updateRemindAt db tid ts).rows.map (·.id) = db.rows.map (·.id) := by
      unfold updateRemindAt
      simp only [List.map_map]
      exact List.map_congr_left (fun t _ => by dsimp; split <;> rfl)
    rw [this]; exact h1
  · intro t ht
    obtain ⟨x, hx, hfx⟩ := List.mem_map.mp ht
    have : t.id = x.id := by rw [← hfx]; split <;> rfl
    rw [this]
    exact h2 x hx

theorem insertHistory_wf (db : DB) (uid task : String) (remindAt : Int) (h : dbWF db) :
    dbWF (insertHistory db uid task remindAt) := by
  obtain ⟨h1, h2⟩ := h
  constructor
  · unfold insertHistory
    simp only [List.map_append, List.map_cons, List.map_nil]
    rw [List.nodup_append]
    refine ⟨h1, List.nodup_singleton _, ?_⟩
    intro x hx
    have := h2
    simp only [List.mem_singleton]
    intro hx1
    obtain ⟨y, hy, hyx⟩ := List.mem_map.mp hx
    have := h2 y hy
    omega
  · intro t ht
    unfold insertHistory at ht
    dsimp only at ht
    unfold insertHistory
    dsimp only
    rcases List.mem_append.mp ht with hmem | hmem
    · have := h2 t hmem
      omega
    · simp only [List.mem_singleton] at hmem
      rw [hmem]
      dsimp only
      omega

theorem fireTask_pres (db : DB) (t : Todo) (i : Int) (hne : i ≠ t.id) (hlt : i < db.nextId) :
    rowById (fireTask db t) i = rowById db i := by
  unfold fireTask
  cases t.cronRule with
  | none =>
    rw [rowById_updateStatus_ne _ _ _ _ hne, rowById_insertHistory_lt _ _ _ _ _ hlt]
  | some rule =>
    rw [rowById_updateRemindAt_ne _ _ _ _ hne, rowById_insertHistory_lt _ _ _ _ _ hlt]

theorem fireTask_mono (db : DB) (t : Todo) : db.nextId ≤ (fireTask db t).nextId := by
  unfold fireTask
  cases t.cronRule <;>
    simp only [updateStatus, updateRemindAt, insertHistory] <;> omega

theorem fireTask_wf (db : DB) (t : Todo) (h : dbWF db) : dbWF (fireTask db t) := by
  unfold fireTask
  cases t.cronRule with
  | none => exact updateStatus_wf _ _ _ (insertHistory_wf _ _ _ _ h)
  | some rule => exact updateRemindAt_wf _ _ _ (insertHistory_wf _ _ _ _ h)

theorem fireTask_mem_pres (db : DB) (t x : Todo) (hx : x ∈ db.rows) (hne : x.id ≠ t.id) :
    x ∈ (fireTask db t).rows := by
  unfold fireTask
  have hins : x ∈ (insertHistory db t.userId t.task t.remindAt).rows := by
    unfold insertHistory
    exact List.mem_append_left _ hx
  cases t.cronRule with
  | none =>
    unfold updateStatus
    have : x = (fun y => if y.id = t.id then { y with status := 1 } else y) x := by
      dsimp; rw [if_neg hne]
    rw [this]
    exact List.mem_map_of_mem _ hins
  | some rule =>
    unfold updateRemindAt
    have : x = (fun y =>
        if y.id = t.id then { y with remindAt := calculateNext t.remindAt rule } else y) x := by
      dsimp; rw [if_neg hne]
    rw [this]
    exact List.mem_map_of_mem _ hins

theorem fireTask_hist_mem (db : DB) (t : Todo) (hne : t.id ≠ db.nextId) :
    (⟨db.nextId, t.userId, t.task, t.remindAt, none, 0, 1⟩ : Todo) ∈ (fireTask db t).rows := by
  unfold fireTask
  have hins : (⟨db.nextId, t.userId, t.task, t.remindAt, none, 0, 1⟩ : Todo) ∈
      (insertHistory db t.userId t.task t.remindAt).rows := by
    unfold insertHistory
    exact List.mem_append_right _ (List.mem_singleton.mpr rfl)
  cases t.cronRule with
  | none =>
    unfold updateStatus
    have heq : (⟨db.nextId, t.userId, t.task, t.remindAt, none, 0, 1⟩ : Todo) =
        (fun y => if y.id = t.id then { y with status := 1 } else y)
          ⟨db.nextId, t.userId, t.task, t.remindAt, none, 0, 1⟩ := by
      dsimp; rw [if_neg (by omega)]
    rw [heq]
    exact List.mem_map_of_mem _ hins
  | some rule =>
    unfold updateRemindAt
    have heq : (⟨db.nextId, t.userId, t.task, t.remindAt, none, 0, 1⟩ : Todo) =
        (fun y => if y.id = t.id then { y with remindAt := calculateNext t.remindAt rule } else y)
          ⟨db.nextId, t.userId, t.task, t.remindAt, none, 0, 1⟩ := by
      dsimp; rw [if_neg (by omega)]
    rw [heq]
    exact List.mem_map_of_mem _ hins

theorem fireTask_effect_recurring (db : DB) (r : Todo) (rule : String)
    (hrule : r.cronRule = some rule) (hfresh : r.id < db.nextId)
    (hrow : rowById db r.id = some r) :
    rowById (fireTask db r) r.id = some { r with remindAt := calculateNext r.remindAt rule } := by
  have hfire : fireTask db r = updateRemindAt (insertHistory db r.userId r.task r.remindAt)
      r.id (calculateNext r.remindAt rule) := by
    unfold fireTask; rw [hrule]
  have h1 : rowById (insertHistory db r.userId r.task r.remindAt) r.id = some r := by
    rw [rowById_insertHistory_lt db r.userId r.task r.remindAt r.id hfresh]; exact hrow
  rw [hfire]
  exact rowById_updateRemindAt_eq _ _ _ h1

theorem fireTask_effect_oneshot (db : DB) (r : Todo)
    (hrule : r.cronRule = none) (hfresh : r.id < db.nextId)
    (hrow : rowById db r.id = some r) :
    rowById (fireTask db r) r.id = some { r with status := 1 } := by
  have hfire : fireTask db r = updateStatus (insertHistory db r.userId r.task r.remindAt)
      r.id 1 := by
    unfold fireTask; rw [hrule]
  have h1 : rowById (insertHistory db r.userId r.task r.remindAt) r.id = some r := by
    rw [rowById_insertHistory_lt db r.userId r.task r.remindAt r.id hfresh]; exact hrow
  rw [hfire]
  exact rowById_updateStatus_eq _ _ _ h1

/-! loop lemmas, generic over the per-reminder step `fire` -/

theorem sweepLoopAbort_mono (fire : DB → Todo → DB)
    (hm : ∀ db t, db.nextId ≤ (fire db t).nextId) (ok : Todo → Bool) :
    ∀ (l : List Todo) (db : DB), db.nextId ≤ ((sweepLoopAbort fire ok l db).1).nextId := by
  intro l
  induction l with
  | nil => intro db; exact le_refl _
  | cons t ts ih =>
    intro db
    simp only [sweepLoopAbort]
    split
    · exact le_trans (hm db t) (ih (fire db t))
    · exact le_refl _

theorem sweepLoopAbort_wf (fire : DB → Todo → DB)
    (hw : ∀ db t, dbWF db → dbWF (fire db t)) (ok : Todo → Bool) :
    ∀ (l : List Todo) (db : DB), dbWF db → dbWF ((sweepLoopAbort fire ok l db).1) := by
  intro l
  induction l with
  | nil => intro db h; exact h
  | cons t ts ih =>
    intro db h
    simp only [sweepLoopAbort]
    split
    · exact ih (fire db t) (hw db t h)
    · exact h

theorem sweepLoopAbort_pres (fire : DB → Todo → DB)
    (hp : ∀ db t i, i ≠ t.id → i < db.nextId → rowById (fire db t) i = rowById db i)
    (hm : ∀ db t, db.nextId ≤ (fire db t).nextId) (ok : Todo → Bool) :
    ∀ (l : List Todo) (db : DB) (i : Int), i < db.nextId → (∀ t ∈ l, t.id ≠ i) →
      rowById ((sweepLoopAbort fire ok l db).1) i = rowById db i := by
  intro l
  induction l with
  | nil => intro db i _ _; rfl
  | cons t ts ih =>
    intro db i hi hl
    simp only [sweepLoopAbort]
    split
    · have hne : i ≠ t.id := fun he => hl t (List.mem_cons_self t ts) he.symm
      rw [ih (fire db t) i (lt_of_lt_of_le hi (hm db t))
        (fun x hx => hl x (List.mem_cons_of_mem t hx))]
      exact hp db t i hne hi
    · rfl

theorem sweepLoopAbort_mem_pres (fire : DB → Todo → DB)
    (hmp : ∀ db t x, x ∈ db.rows → x.id ≠ t.id → x ∈ (fire db t).rows) (ok : Todo → Bool) :
    ∀ (l : List Todo) (db : DB) (x : Todo), x ∈ db.rows → (∀ t ∈ l, t.id ≠ x.id) →
      x ∈ ((sweepLoopAbort fire ok l db).1).rows := by
  intro l
  induction l with
  | nil => intro db x hx _; exact hx
  | cons t ts ih =>
    intro db x hx hl
    simp only [sweepLoopAbort]
    split
    · exact ih (fire db t) x
        (hmp db t x hx (fun he => hl t (List.mem_cons_self t ts) he.symm))
        (fun y hy => hl y (List.mem_cons_of_mem t hy))
    · exact hx

theorem sweepLoopAbort_acts_all_ok (fire : DB → Todo → DB) (ok : Todo → Bool) :
    ∀ (l : List Todo) (db : DB), (∀ t ∈ l, ok t = true) →
      (sweepLoopAbort fire ok l db).2 =
        l.map (fun t => (⟨t.id, t.userId, t.task⟩ : Notification)) := by
  intro l
  induction l with
  | nil => intro db _; rfl
  | cons t ts ih =>
    intro db h
    simp only [sweepLoopAbort]
    rw [if_pos (h t (List.mem_cons_self t ts))]
    simp only [List.map_cons]
    rw [ih (fire db t) (fun x hx => h x (List.mem_cons_of_mem t hx))]

theorem sweepLoopAbort_acts_source (fire : DB → Todo → DB) (ok : Todo → Bool) :
    ∀ (l : List Todo) (db : DB) (a : Notification), a ∈ (sweepLoopAbort fire ok l db).2 →
      ∃ t ∈ l, a = ⟨t.id, t.userId, t.task⟩ := by
  intro l
  induction l with
  | nil => intro db a ha; cases ha
  | cons t ts ih =>
    intro db a ha
    simp only [sweepLoopAbort] at ha
    split at ha
    · rcases List.mem_cons.mp ha with rfl | hmem
      · exact ⟨t, List.mem_cons_self t ts, rfl⟩
      · obtain ⟨x, hx, hax⟩ := ih (fire db t) a hmem
        exact ⟨x, List.mem_cons_of_mem t hx, hax⟩
    · cases ha

theorem sweepLoopAbort_effect (fire : DB → Todo → DB)
    (hp : ∀ db t i, i ≠ t.id → i < db.nextId → rowById (fire db t) i = rowById db i)
    (hm : ∀ db t, db.nextId ≤ (fire db t).nextId)
    (ok : Todo → Bool) (r rG : Todo)
    (heff : ∀ db2 : DB, rowById db2 r.id = some r → r.id < db2.nextId →
      rowById (fire db2 r) r.id = some rG) :
    ∀ (l : List Todo) (db : DB), (∀ t ∈ l, ok t = true) → (l.map (·.id)).Nodup →
      r ∈ l → r.id < db.nextId → rowById db r.id = some r →
      rowById ((sweepLoopAbort fire ok l db).1) r.id = some rG := by
  intro l
  induction l with
  | nil => intro db _ _ hr; cases hr
  | cons t ts ih =>
    intro db hok hnodup hr hfresh hrow
    simp only [sweepLoopAbort]
    rw [if_pos (hok t (List.mem_cons_self t ts))]
    rcases List.mem_cons.mp hr with rfl | hmem
    · rw [sweepLoopAbort_pres fire hp hm ok ts (fire db r) r.id
        (lt_of_lt_of_le hfresh (hm db r))
        (by
          intro x hx he
          rw [List.map_cons] at hnodup
          exact (List.nodup_cons.mp hnodup).1 (he ▸ List.mem_map_of_mem _ hx))]
      exact heff db hrow hfresh
    · have hne : r.id ≠ t.id := by
        intro he
        rw [List.map_cons] at hnodup
        exact (List.nodup_cons.mp hnodup).1 (he ▸ List.mem_map_of_mem _ hmem)
      exact ih (fire db t) (fun x hx => hok x (List.mem_cons_of_mem t hx))
        (by rw [List.map_cons] at hnodup; exact (List.nodup_cons.mp hnodup).2)
        hmem (lt_of_lt_of_le hfresh (hm db t))
        (by rw [hp db t r.id hne hfresh]; exact hrow)

theorem sweepLoopSkip_notified (fire : DB → Todo → DB) (ok : Todo → Bool) :
    ∀ (l : List Todo) (db : DB) (r : Todo), r ∈ l → ok r = true →
      (⟨r.id, r.userId, r.task⟩ : Notification) ∈ (sweepLoopSkip fire ok l db).2 := by
  intro l
  induction l with
  | nil => intro db r hr; cases hr
  | cons t ts ih =>
    intro db r hr hok
    simp only [sweepLoopSkip]
    rcases List.mem_cons.mp hr with rfl | hmem
    · rw [if_pos hok]
      exact List.mem_cons_self _ _
    · split
      · exact List.mem_cons_of_mem _ (ih (fire db t) r hmem hok)
      · exact ih db r hmem hok

theorem sweepLoopAbort_fireTask_hist (ok : Todo → Bool) :
    ∀ (l : List Todo) (db : DB) (r : Todo), (∀ t ∈ l, ok t = true) →
      (∀ t ∈ l, t.id < db.nextId) → r ∈ l →
      ∃ h ∈ ((sweepLoopAbort fireTask ok l db).1).rows,
        h.status = 1 ∧ h.userId = r.userId ∧ h.task = r.task ∧
        h.remindAt = r.remindAt ∧ h.cronRule = none := by
  intro l
  induction l with
  | nil => intro db r _ _ hr; cases hr
  | cons t ts ih =>
    intro db r hok hids hr
    simp only [sweepLoopAbort]
    rw [if_pos (hok t (List.mem_cons_self t ts))]
    rcases List.mem_cons.mp hr with rfl | hmem
    · refine ⟨⟨db.nextId, r.userId, r.task, r.remindAt, none, 0, 1⟩, ?_, rfl, rfl, rfl, rfl, rfl⟩
      have hh := fireTask_hist_mem db r (by
        have := hids r (List.mem_cons_self r ts); omega)
      exact sweepLoopAbort_mem_pres fireTask
        (fun db2 t2 x hx hne => fireTask_mem_pres db2 t2 x hx hne) ok ts (fireTask db r) _ hh
        (fun y hy he => by
          have h1 := hids y (List.mem_cons_of_mem r hy)
          dsimp at he
          omega)
    · obtain ⟨h, hh, hprops⟩ := ih (fireTask db t) r
        (fun x hx => hok x (List.mem_cons_of_mem t hx))
        (fun x hx => lt_of_lt_of_le (hids x (List.mem_cons_of_mem t hx)) (fireTask_mono db t))
        hmem
      exact ⟨h, hh, hprops⟩

theorem filter_id_singleton (r : Todo) :
    ∀ l : List Todo, (l.map (·.id)).Nodup → r ∈ l →
      l.filter (fun t => t.id == r.id) = [r] := by
  intro l
  induction l with
  | nil => intro _ hr; cases hr
  | cons t ts ih =>
    intro hnodup hr
    rw [List.map_cons] at hnodup
    rcases List.mem_cons.mp hr with rfl | hmem
    · rw [List.filter_cons_of_pos (by simp)]
      have : ts.filter (fun t => t.id == r.id) = [] := by
        rw [List.filter_eq_nil_iff]
        intro x hx
        simp only [beq_iff_eq]
        intro he
        exact (List.nodup_cons.mp hnodup).1 (he ▸ List.mem_map_of_mem _ hx)
      rw [this]
    · have hne : t.id ≠ r.id := by
        intro he
        exact (List.nodup_cons.mp hnodup).1 (he ▸ List.mem_map_of_mem _ hmem)
      rw [List.filter_cons_of_neg (by simp [hne])]
      exact ih (List.nodup_cons.mp hnodup).2 hmem

/-! fireMain lemmas -/

theorem fireMain_pres (db : DB) (t : Todo) (i : Int) (hne : i ≠ t.id) (_hlt : i < db.nextId) :
    rowById (fireMain db t) i = rowById db i := by
  unfold fireMain
  cases t.cronRule with
  | none => rw [rowById_updateStatus_ne _ _ _ _ hne]
  | some rule =>
    dsimp only
    cases calculateNextFromRule t.remindAt rule with
    | none => rw [rowById_updateRemindAt_ne _ _ _ _ hne]
    | some next => rw [rowById_updateRemindAt_ne _ _ _ _ hne]

theorem fireMain_mono (db : DB) (t : Todo) : db.nextId ≤ (fireMain db t).nextId := by
  unfold fireMain
  cases t.cronRule with
  | none => simp only [updateStatus]; exact le_refl _
  | some rule =>
    dsimp only
    cases calculateNextFromRule t.remindAt rule <;>
      simp only [updateRemindAt] <;> exact le_refl _

theorem fireMain_wf (db : DB) (t : Todo) (h : dbWF db) : dbWF (fireMain db t) := by
  unfold fireMain
  cases t.cronRule with
  | none => exact updateStatus_wf _ _ _ h
  | some rule =>
    dsimp only
    cases calculateNextFromRule t.remindAt rule with
    | none => exact updateRemindAt_wf _ _ _ h
    | some next => exact updateRemindAt_wf _ _ _ h

theorem fireMain_effect_oneshot (db : DB) (r : Todo)
    (hrule : r.cronRule = none) (hrow : rowById db r.id = some r) :
    rowById (fireMain db r) r.id = some { r with status := 1 } := by
  have hfire : fireMain db r = updateStatus db r.id 1 := by
    unfold fireMain; rw [hrule]
  rw [hfire]
  exact rowById_updateStatus_eq _ _ _ hrow

theorem fireMain_rows_length (db : DB) (t : Todo) :
    (fireMain db t).rows.length = db.rows.length := by
  unfold fireMain
  cases t.cronRule with
  | none => simp [updateStatus]
  | some rule =>
    dsimp only
    cases calculateNextFromRule t.remindAt rule <;> simp [updateRemindAt]

theorem sweepLoopAbort_rows_length (fire : DB → Todo → DB)
    (hl : ∀ db t, (fire db t).rows.length = db.rows.length) (ok : Todo → Bool) :
    ∀ (l : List Todo) (db : DB),
      ((sweepLoopAbort fire ok l db).1).rows.length = db.rows.length := by
  intro l
  induction l with
  | nil => intro db; rfl
  | cons t ts ih =>
    intro db
    simp only [sweepLoopAbort]
    split
    · rw [ih (fire db t), hl db t]
    · rfl

/-! due-query lemmas -/

theorem mem_dueQuery (now : Int) (db : DB) (t : Todo) :
    t ∈ dueQuery now db ↔ t ∈ db.rows ∧ (t.status = 0 ∧ 0 < t.remindAt ∧ t.remindAt ≤ now) := by
  unfold dueQuery
  rw [List.mem_filter, decide_eq_true_eq]

theorem mem_dueQueryV2 (now : Int) (db : DB) (t : Todo) :
    t ∈ dueQueryV2 now db ↔
      t ∈ db.rows ∧ (t.status = 0 ∧ t.allDay = 0 ∧ 0 < t.remindAt ∧ t.remindAt ≤ now) := by
  unfold dueQueryV2
  rw [List.mem_filter, decide_eq_true_eq]

theorem dueQuery_sublist (now : Int) (db : DB) : List.Sublist (dueQuery now db) db.rows :=
  List.filter_sublist _

theorem dueQueryV2_sublist (now : Int) (db : DB) : List.Sublist (dueQueryV2 now db) db.rows :=
  List.filter_sublist _

theorem nodup_ids_of_sublist (l : List Todo) (db : DB) (hwf : dbWF db)
    (hsub : List.Sublist l db.rows) : (l.map (·.id)).Nodup :=
  List.Nodup.sublist (List.Sublist.map _ hsub) hwf.1


/-! ## Weekly-scan lemmas -/

/-- When the civil (UTC+8) time of day of `t` is 08:00 or later, the UTC and
civil calendar dates coincide, so the UTC-based weekday arithmetic of the code
agrees with the civil weekday of the candidate day. -/
theorem weekday_align (t off : Int) (h : t % 86400 < 57600) :
    iso7 ((iso7 (jsGetDay t) + off) % 7) = civilWeekdayISO (t + off * 86400) := by
  unfold civilWeekdayISO iso7 jsGetDay
  have hday : (t + off * 86400 + 28800) / 86400 = t / 86400 + off := by omega
  rw [hday]
  split_ifs <;> omega

theorem scan_correspond (days : List Int) (odays : List (Option Int))
    (hdays : ∀ x : Int, odays.contains (some x) = decide (x ∈ days))
    (t : Int) (h : t % 86400 < 57600) :
    ∀ fuel off, weeklyScan odays (iso7 (jsGetDay t)) fuel off = specWeeklyScan days t fuel off := by
  intro fuel
  induction fuel with
  | zero => intro off; rfl
  | succ k ih =>
    intro off
    simp only [weeklyScan, specWeeklyScan]
    rw [hdays, weekday_align t off h]
    by_cases hmem : civilWeekdayISO (t + off * 86400) ∈ days
    · rw [if_pos (by simp [hmem]), if_pos hmem]
    · rw [if_neg (by simp [hmem]), if_neg hmem]
      exact ih (off + 1)

theorem weeklyScan_none (days : List (Option Int)) (cur : Int)
    (h : ∀ k : Int, 1 ≤ k → k ≤ 7 → (some k) ∉ days) :
    ∀ fuel off, weeklyScan days cur fuel off = none := by
  intro fuel
  induction fuel with
  | zero => intro off; rfl
  | succ k ih =>
    intro off
    simp only [weeklyScan]
    have hbound : 1 ≤ iso7 ((cur + off) % 7) ∧ iso7 ((cur + off) % 7) ≤ 7 := by
      unfold iso7; split <;> omega
    rw [if_neg (by
      intro hc
      have hmem : some (iso7 ((cur + off) % 7)) ∈ days := by
        have := List.elem_iff.mp hc
        exact this
      exact h _ hbound.1 hbound.2 hmem)]
    exact ih (off + 1)

/-! ## Claim theorems -/

theorem calculateNext_daily (s : Int) : calculateNext s "daily" = s + 86400 := by
  simp only [calculateNext]
  rw [if_pos trivial]
  have h := jsSetDate_add s 1
  omega

/-- C1 (counterexample): the claim states that an offset-less fully-qualified
date-time string resolves as wall-clock time in the civil timezone (UTC+8).
In main.js `processWithAI` the string is handed directly to the platform
parser, which reads it as system (UTC) time: `2025-12-25T09:00:00` resolves to
the instant whose UTC reading is 09:00 — not the instant whose Taipei reading
is 09:00 (which is 2025-12-25T01:00:00Z). -/
theorem resolveTime_offsetless_counterexample :
    resolveMainTime ⟨2025, 12, 25, 9, 0, 0, none⟩ ≠ taipeiInstant 2025 12 25 9 0 0 ∧
    resolveMainTime ⟨2025, 12, 25, 9, 0, 0, none⟩ = utcInstant 2025 12 25 9 0 0 ∧
    taipeiInstant 2025 12 25 9 0 0 = utcInstant 2025 12 25 1 0 0 := by
  decide

/-- C1 (amended): for every offset-less fully-qualified date-time expression,
the rewritten task parser (which appends "+08:00" before parsing) resolves it
as Taipei wall-clock time, while main.js `processWithAI` resolves it as
system/UTC time. -/
theorem resolveTime_offsetless_amended :
    ∀ e : DateTimeExpr, e.tzOffsetMin = none →
      resolveV2Time e = some (taipeiInstant e.year e.month e.day e.hour e.minute e.second) ∧
      resolveMainTime e = utcInstant e.year e.month e.day e.hour e.minute e.second := by
  intro e he
  constructor
  · simp only [resolveV2Time]
    rw [he]
    simp only [jsDateParse, taipeiInstant]
    norm_num
  · simp only [resolveMainTime, jsDateParse]
    rw [he]
    norm_num

theorem resolveTime_offsetless_witness :
    resolveV2Time ⟨2025, 12, 25, 9, 0, 0, none⟩ = some (taipeiInstant 2025 12 25 9 0 0) ∧
    resolveMainTime ⟨2025, 12, 25, 9, 0, 0, none⟩ = utcInstant 2025 12 25 9 0 0 :=
  resolveTime_offsetless_amended ⟨2025, 12, 25, 9, 0, 0, none⟩ rfl

/-- C2 (counterexample): the claim states that firing a Daily rule from
`triggerAt` T yields exactly T plus one day.  main.js `calculateNextFromRule`
starts from `new Date((lastTs + 60) * 1000)`, so each daily firing advances by
86460 seconds, not 86400. -/
theorem daily_advance_main_drift_counterexample :
    calculateNextFromRule (utcInstant 2025 6 1 9 0 0) "daily"
        = some (utcInstant 2025 6 1 9 0 0 + 86460) ∧
    utcInstant 2025 6 1 9 0 0 + 86460 ≠ utcInstant 2025 6 1 9 0 0 + 86400 := by
  decide

/-- C2 (amended): time.js `calculateNext` advances a Daily rule by exactly one
day from the previous trigger — iterating N times from T yields T + N days,
with the sweep's wall-clock time nowhere an input — while main.js
`calculateNextFromRule` advances by one day plus sixty seconds per firing. -/
theorem daily_advance_exact_amended :
    (∀ (n : Nat) (T : Int),
        (fun s => calculateNext s "daily")^[n] T = T + (n : Int) * 86400) ∧
    (∀ T : Int, calculateNextFromRule T "daily" = some (T + 86400 + 60)) := by
  constructor
  · intro n
    induction n with
    | zero => intro T; simp
    | succ k ih =>
      intro T
      rw [Function.iterate_succ_apply, calculateNext_daily, ih]
      push_cast
      ring
  · intro T
    simp only [calculateNextFromRule]
    rw [if_pos trivial]
    have h := jsSetDate_add (T + 60) 1
    rw [h]
    congr 1
    ring

/-- C3 (counterexample): the claim states that a Monthly rule fired from civil
Jan 31 00:00 clamps to the last day of February — "never March 3".  time.js
adds the month with JavaScript `setMonth` overflow semantics, yielding exactly
civil March 3 00:00 in 2025 (and neither Feb 28 nor Feb 29). -/
theorem monthly_clamp_counterexample :
    calculateNext (taipeiInstant 2025 1 31 0 0 0) "monthly:31"
        = taipeiInstant 2025 3 3 0 0 0 ∧
    taipeiInstant 2025 3 3 0 0 0 ≠ taipeiInstant 2025 2 28 0 0 0 ∧
    taipeiInstant 2025 3 3 0 0 0 ≠ taipeiInstant 2025 2 29 0 0 0 := by
  decide

/-- C3 (amended): no monthly implementation clamps.  time.js's `setMonth(+1)`
overflows a too-short month: from civil 2025-01-31 00:00 it returns civil
2025-03-03 00:00, and in the leap year from civil 2024-01-31 00:00 it returns
civil 2024-03-02 00:00.  main.js additionally starts 60 seconds late and
re-sets the configured day-of-month after the overflow: from civil 2025-01-31
00:00 with `monthly:31` it returns civil 2025-04-01 00:01. -/
theorem monthly_overflow_amended :
    calculateNext (taipeiInstant 2025 1 31 0 0 0) "monthly:31"
        = taipeiInstant 2025 3 3 0 0 0 ∧
    calculateNext (taipeiInstant 2024 1 31 0 0 0) "monthly:31"
        = taipeiInstant 2024 3 2 0 0 0 ∧
    calculateNextFromRule (taipeiInstant 2025 1 31 0 0 0) "monthly:31"
        = some (taipeiInstant 2025 4 1 0 1 0) := by
  decide

/-- C4 (code bug): the claim (and the code's own comment on the clamp branch)
require a Yearly rule configured on Feb 29 to clamp to Feb 28 in a non-leap
target year.  The clamp test in time.js runs after JavaScript date
normalization has already moved the date off Feb 29, so it can never fire:
from civil 2024-02-29 00:00 the code returns civil 2025-03-01 00:00, and from
UTC 2024-02-29 12:00 it returns UTC 2025-03-01 12:00 — March 1, never the
claimed Feb 28. -/
theorem yearly_feb29_clamp_dead :
    calculateNext (taipeiInstant 2024 2 29 0 0 0) "yearly:02-29"
        = taipeiInstant 2025 3 1 0 0 0 ∧
    calculateNext (utcInstant 2024 2 29 12 0 0) "yearly:02-29"
        = utcInstant 2025 3 1 12 0 0 ∧
    taipeiInstant 2025 3 1 0 0 0 ≠ taipeiInstant 2025 2 28 0 0 0 := by
  decide

/-- C5 (counterexample): the claim requires the ISO weekday to be read "in
the civil timezone".  time.js reads it off the runtime (UTC) day: from civil
Tuesday 2025-12-23 01:00 (which is still Monday in UTC) with `weekly:2`, the
claimed result is the next civil Tuesday one week later, but the code matches
at offset one day and returns civil Wednesday 01:00.  main.js compares
configured days against the raw platform weekday (Sunday=0..Saturday=6), so
ISO Sunday=7 can never match and the loop overshoots: from civil Sunday
2025-12-21 01:00 with `weekly:7` it returns eight days and sixty seconds
later instead of the next civil Sunday. -/
theorem weekly_civil_weekday_counterexample :
    calculateNext (taipeiInstant 2025 12 23 1 0 0) "weekly:2"
        = taipeiInstant 2025 12 24 1 0 0 ∧
    taipeiInstant 2025 12 24 1 0 0 ≠ taipeiInstant 2025 12 30 1 0 0 ∧
    calculateNextFromRule (taipeiInstant 2025 12 21 1 0 0) "weekly:7"
        = some (taipeiInstant 2025 12 29 1 1 0) ∧
    taipeiInstant 2025 12 29 1 1 0 ≠ taipeiInstant 2025 12 28 1 0 0 := by
  decide

/-- C5 (amended): for time.js `calculateNext`, on every instant whose civil
(UTC+8) time-of-day is before 16:00 UTC-day rollover (so the platform UTC day
equals the civil day), the weekly rule `weekly:1,3,5` scans forward 1..7 days
and returns the first whose civil ISO weekday (Monday=1..Sunday=7) is in
{1,3,5}, preserving the time-of-day; concretely, civil Monday 2025-12-22 20:58
yields civil Wednesday 2025-12-24 20:58. -/
theorem weekly_scan_weekday_amended :
    (∀ t : Int, t % 86400 < 57600 →
        calculateNext t "weekly:1,3,5" = specWeeklyNextCivil [1, 3, 5] t) ∧
    calculateNext (taipeiInstant 2025 12 22 20 58 0) "weekly:1,3,5"
        = taipeiInstant 2025 12 24 20 58 0 := by
  constructor
  · intro t h
    have hdays : ∀ x : Int,
        (parseDays "weekly:1,3,5").contains (some x)
          = decide (x ∈ ([1, 3, 5] : List Int)) := by
      intro x
      have hp : parseDays "weekly:1,3,5" = [some 1, some 3, some 5] := by decide
      rw [hp]
      have h1 : (List.contains [some 1, some 3, some 5] (some x) : Bool)
          = decide (some x ∈ [some 1, some 3, some 5]) := List.elem_eq_mem _ _
      rw [h1]
      exact decide_eq_decide.mpr (by simp)
    have hred : calculateNext t "weekly:1,3,5" =
        (match weeklyScan (parseDays "weekly:1,3,5") (iso7 (jsGetDay t)) 7 1 with
         | some off => jsSetDate t (jsGetDate t + off)
         | none => t) := by
      simp only [calculateNext]
      rw [if_neg (by decide), if_pos (by decide)]
    rw [hred, scan_correspond [1, 3, 5] (parseDays "weekly:1,3,5") hdays t h 7 1]
    simp only [specWeeklyNextCivil]
    cases hs : specWeeklyScan [1, 3, 5] t 7 1 with
    | none => rfl
    | some off => exact jsSetDate_add t off
  · decide

theorem weekly_scan_weekday_witness :
    calculateNext (taipeiInstant 2025 12 22 20 58 0) "weekly:1,3,5"
      = specWeeklyNextCivil [1, 3, 5] (taipeiInstant 2025 12 22 20 58 0) :=
  weekly_scan_weekday_amended.1 (taipeiInstant 2025 12 22 20 58 0) (by decide)

/-- C10: time.js `calculateNext` (current and legacy copies) is total; for
every rule string that is neither "daily" nor prefixed "weekly:", "monthly:"
or "yearly:" it returns the input timestamp unchanged, and a "weekly:" rule
whose configured entries include no ISO weekday 1..7 also returns the input
unchanged. -/
theorem calculateNext_fallback_identity :
    (∀ (ts : Int) (rule : String), rule ≠ "daily" →
        strStarts rule "weekly:" = false → strStarts rule "monthly:" = false →
        strStarts rule "yearly:" = false →
        calculateNext ts rule = ts ∧ calculateNextLegacy ts rule = ts) ∧
    (∀ (ts : Int) (rule : String), strStarts rule "weekly:" = true →
        (∀ k : Int, 1 ≤ k → k ≤ 7 → (some k) ∉ parseDays rule) →
        calculateNext ts rule = ts) := by
  constructor
  · intro ts rule h1 h2 h3 h4
    constructor
    · simp only [calculateNext]
      rw [if_neg h1, if_neg (by simp [h2]), if_neg (by simp [h3]), if_neg (by simp [h4])]
    · simp only [calculateNextLegacy]
      rw [if_neg h1, if_neg (by simp [h2]), if_neg (by simp [h3]), if_neg (by simp [h4])]
  · intro ts rule hw hdays
    simp only [calculateNext]
    rw [if_neg (fun he => absurd hw (by rw [he]; decide)), if_pos hw]
    rw [weeklyScan_none (parseDays rule) (iso7 (jsGetDay ts))
      (fun k hk1 hk2 => hdays k hk1 hk2) 7 1]

theorem calculateNext_fallback_identity_witness :
    (calculateNext 12345 "hourly" = 12345 ∧ calculateNextLegacy 12345 "hourly" = 12345) ∧
    calculateNext 12345 "weekly:8,9" = 12345 := by
  refine ⟨calculateNext_fallback_identity.1 12345 "hourly" (by decide) (by decide)
      (by decide) (by decide),
    calculateNext_fallback_identity.2 12345 "weekly:8,9" (by decide) ?_⟩
  intro k h1 h2 hk
  have hp : parseDays "weekly:8,9" = [some 8, some 9] := by decide
  rw [hp] at hk
  simp at hk
  omega

/-- C8 (counterexample): the claim states every deletion by id is scoped to
the requesting user.  The inline-list variant's `del_` callback issues
`DELETE FROM todos WHERE id = ?` with no owner condition: user "alice"
requesting deletion of id 1 removes a row owned by "bob". -/
theorem delCallback_cross_user_counterexample :
    (delCallback ⟨[⟨1, "bob", "pay rent", 100, none, 0, 0⟩], 2⟩ "alice" 1).rows = [] ∧
    "bob" ≠ "alice" := by
  decide

/-- C8 (amended): db.js `deleteTodosByIds` is owner-scoped — every row whose
owner differs from the requesting user survives — while the inline-list
variant's `del_` callback deletes by id alone: it removes every row with the
given id regardless of owner, and leaves exactly the rows with a different
id. -/
theorem delete_owner_scope_amended :
    (∀ (db : DB) (ids : List Int) (uid : String) (t : Todo),
        t ∈ db.rows → t.userId ≠ uid → t ∈ (deleteTodosByIds db ids uid).rows) ∧
    (∀ (db : DB) (uid : String) (tid : Int) (t : Todo),
        t ∈ db.rows → t.id ≠ tid → t ∈ (delCallback db uid tid).rows) ∧
    (∀ (db : DB) (uid : String) (tid : Int) (t : Todo),
        t ∈ (delCallback db uid tid).rows → t.id ≠ tid) := by
  refine ⟨?_, ?_, ?_⟩
  · intro db ids uid t ht hne
    simp only [deleteTodosByIds]
    rw [List.mem_filter]
    refine ⟨ht, ?_⟩
    simp [hne]
  · intro db uid tid t ht hne
    simp only [delCallback]
    rw [List.mem_filter]
    refine ⟨ht, ?_⟩
    simp [hne]
  · intro db uid tid t ht
    simp only [delCallback] at ht
    rw [List.mem_filter] at ht
    simpa using ht.2

theorem delete_owner_scope_witness :
    ⟨1, "bob", "pay rent", 100, none, 0, 0⟩
        ∈ (deleteTodosByIds ⟨[⟨1, "bob", "pay rent", 100, none, 0, 0⟩], 2⟩ [1] "alice").rows :=
  delete_owner_scope_amended.1 ⟨[⟨1, "bob", "pay rent", 100, none, 0, 0⟩], 2⟩ [1] "alice"
    ⟨1, "bob", "pay rent", 100, none, 0, 0⟩ (by simp) (by decide)

/-- C6 (counterexample): the claim states every firing of a recurring reminder
appends a done-status historical record.  The main.js sweep only rewrites
`remind_at` (via `calculateNextFromRule`, which also adds 60 seconds): after
firing a due `daily` reminder the table still holds exactly the one live row —
advanced and still active — and no historical record at all. -/
theorem scheduledMain_no_history_counterexample :
    (scheduledMain (fun _ => true) 100
        ⟨[⟨1, "u", "standup", 100, some "daily", 0, 0⟩], 2⟩).1.rows
      = [⟨1, "u", "standup", 86560, some "daily", 0, 0⟩] := by
  decide

/-- C6 (amended): in the rewritten task sweep, firing a due recurring reminder
keeps the live row active (status stays 0) while advancing its `remind_at` to
the rule's next occurrence computed from the fired instant, and appends a
done-status historical record carrying the fired `remind_at`; the main.js
sweep, by contrast, never grows the table, so it appends no historical record
for any firing. -/
theorem recurring_fire_advances
    (db : DB) (r : Todo) (rule : String) (now : Int)
    (hwf : dbWF db) (hr : r ∈ db.rows) (hcron : r.cronRule = some rule)
    (hstatus : r.status = 0) (hpos : 0 < r.remindAt) (hdue : r.remindAt ≤ now)
    (hwk : weekdayPass now r = true) :
    rowById (processScheduledReminders (fun _ => true) now db).1 r.id
        = some { r with remindAt := calculateNext r.remindAt rule } ∧
    r.status = 0 ∧
    (∃ h ∈ ((processScheduledReminders (fun _ => true) now db).1).rows,
        h.status = 1 ∧ h.userId = r.userId ∧ h.task = r.task ∧
        h.remindAt = r.remindAt ∧ h.cronRule = none) ∧
    (∀ ok : Todo → Bool, ∀ db2 : DB,
        ((scheduledMain ok now db2).1).rows.length = db2.rows.length) := by
  have hsub1 : List.Sublist ((dueQuery now db).filter (weekdayPass now)) db.rows :=
    List.Sublist.trans (List.filter_sublist _) (dueQuery_sublist now db)
  have hnodup1 := nodup_ids_of_sublist _ db hwf hsub1
  have hrL1 : r ∈ (dueQuery now db).filter (weekdayPass now) := by
    rw [List.mem_filter]
    exact ⟨(mem_dueQuery now db r).mpr ⟨hr, hstatus, hpos, hdue⟩, hwk⟩
  have hfresh : r.id < db.nextId := hwf.2 r hr
  have hrow : rowById db r.id = some r := rowById_of_mem db hwf r hr
  have heff : ∀ db2 : DB, rowById db2 r.id = some r → r.id < db2.nextId →
      rowById (fireTask db2 r) r.id
        = some { r with remindAt := calculateNext r.remindAt rule } :=
    fun db2 hrow2 hfresh2 => fireTask_effect_recurring db2 r rule hcron hfresh2 hrow2
  refine ⟨?_, hstatus, ?_, ?_⟩
  · unfold processScheduledReminders
    exact sweepLoopAbort_effect fireTask fireTask_pres fireTask_mono _ r _ heff
      _ db (fun _ _ => rfl) hnodup1 hrL1 hfresh hrow
  · unfold processScheduledReminders
    exact sweepLoopAbort_fireTask_hist _ _ db r (fun _ _ => rfl)
      (fun t ht => hwf.2 t (hsub1.subset ht)) hrL1
  · intro ok db2
    unfold scheduledMain
    exact sweepLoopAbort_rows_length fireMain fireMain_rows_length ok _ db2

theorem recurring_fire_advances_witness :
    rowById (processScheduledReminders (fun _ => true) 100
        ⟨[⟨1, "u", "standup", 100, some "daily", 0, 0⟩], 2⟩).1 1
      = some ⟨1, "u", "standup", calculateNext 100 "daily", some "daily", 0, 0⟩ :=
  (recurring_fire_advances ⟨[⟨1, "u", "standup", 100, some "daily", 0, 0⟩], 2⟩
      ⟨1, "u", "standup", 100, some "daily", 0, 0⟩ "daily" 100
      ⟨by decide, by decide⟩ (by decide) rfl rfl (by decide) (by decide) (by decide)).1

/-- C7: one-shot lifecycle, in both the rewritten task sweep (first half) and
the main.js sweep (second half).  A due reminder with no recurrence rule fired
once under an always-succeeding notifier ends with status done; the sweep
emits exactly one notify action for it; a later duplicate sweep leaves the
done row unchanged and emits no action for it, because the due query selects
only active (status 0) reminders. -/
theorem oneShot_lifecycle
    (db : DB) (r : Todo) (now1 now2 : Int)
    (hwf : dbWF db) (hr : r ∈ db.rows) (hcron : r.cronRule = none)
    (hstatus : r.status = 0) (hpos : 0 < r.remindAt) (hdue : r.remindAt ≤ now1) :
    (rowById (processScheduledReminders (fun _ => true) now1 db).1 r.id
        = some { r with status := 1 } ∧
      (((processScheduledReminders (fun _ => true) now1 db).2).filter
        (fun a => a.tid == r.id)).length = 1 ∧
      rowById (processScheduledReminders (fun _ => true) now2
        (processScheduledReminders (fun _ => true) now1 db).1).1 r.id
        = some { r with status := 1 } ∧
      (∀ a ∈ (processScheduledReminders (fun _ => true) now2
        (processScheduledReminders (fun _ => true) now1 db).1).2, a.tid ≠ r.id)) ∧
    (rowById (scheduledMain (fun _ => true) now1 db).1 r.id = some { r with status := 1 } ∧
      (((scheduledMain (fun _ => true) now1 db).2).filter
        (fun a => a.tid == r.id)).length = 1 ∧
      rowById (scheduledMain (fun _ => true) now2
        (scheduledMain (fun _ => true) now1 db).1).1 r.id = some { r with status := 1 } ∧
      (∀ a ∈ (scheduledMain (fun _ => true) now2
        (scheduledMain (fun _ => true) now1 db).1).2, a.tid ≠ r.id)) := by
  constructor
  · have hsub1 : List.Sublist ((dueQuery now1 db).filter (weekdayPass now1)) db.rows :=
      List.Sublist.trans (List.filter_sublist _) (dueQuery_sublist now1 db)
    have hnodup1 := nodup_ids_of_sublist _ db hwf hsub1
    have hrL1 : r ∈ (dueQuery now1 db).filter (weekdayPass now1) := by
      rw [List.mem_filter]
      refine ⟨(mem_dueQuery now1 db r).mpr ⟨hr, hstatus, hpos, hdue⟩, ?_⟩
      unfold weekdayPass
      rw [hcron]
    have hids1 : ∀ t ∈ (dueQuery now1 db).filter (weekdayPass now1), t.id < db.nextId :=
      fun t ht => hwf.2 t (hsub1.subset ht)
    have hfresh : r.id < db.nextId := hwf.2 r hr
    have hrow : rowById db r.id = some r := rowById_of_mem db hwf r hr
    have heff : ∀ db2 : DB, rowById db2 r.id = some r → r.id < db2.nextId →
        rowById (fireTask db2 r) r.id = some { r with status := 1 } :=
      fun db2 hrow2 hfresh2 => fireTask_effect_oneshot db2 r hcron hfresh2 hrow2
    have h1 : rowById (processScheduledReminders (fun _ => true) now1 db).1 r.id
        = some { r with status := 1 } := by
      unfold processScheduledReminders
      exact sweepLoopAbort_effect fireTask fireTask_pres fireTask_mono _ r _ heff
        _ db (fun _ _ => rfl) hnodup1 hrL1 hfresh hrow
    have h2 : (((processScheduledReminders (fun _ => true) now1 db).2).filter
        (fun a => a.tid == r.id)).length = 1 := by
      unfold processScheduledReminders
      rw [sweepLoopAbort_acts_all_ok fireTask _ _ db (fun _ _ => rfl)]
      rw [List.filter_map]
      have hsingle := filter_id_singleton r _ hnodup1 hrL1
      have hcomp : ((fun (a : Notification) => a.tid == r.id) ∘
          (fun (t : Todo) => (⟨t.id, t.userId, t.task⟩ : Notification)))
          = (fun (t : Todo) => t.id == r.id) := rfl
      rw [hcomp, hsingle]
      rfl
    have hwf1 : dbWF (processScheduledReminders (fun _ => true) now1 db).1 := by
      unfold processScheduledReminders
      exact sweepLoopAbort_wf fireTask fireTask_wf _ _ db hwf
    have hmono1 : db.nextId ≤ ((processScheduledReminders (fun _ => true) now1 db).1).nextId := by
      unfold processScheduledReminders
      exact sweepLoopAbort_mono fireTask fireTask_mono _ _ db
    set db1 := (processScheduledReminders (fun _ => true) now1 db).1 with hdb1
    have hkey : ∀ t : Todo, t ∈ db1.rows → t.id = r.id → t = { r with status := 1 } := by
      intro t ht hid
      have hsome := rowById_of_mem db1 hwf1 t ht
      rw [hid, h1] at hsome
      exact (Option.some_inj.mp hsome).symm
    have hL2 : ∀ t ∈ (dueQuery now2 db1).filter (weekdayPass now2), t.id ≠ r.id := by
      intro t ht he
      have htdue := (List.mem_filter.mp ht).1
      obtain ⟨htrows, hts, _, _⟩ := (mem_dueQuery now2 db1 t).mp htdue
      have hteq := hkey t htrows he
      rw [hteq] at hts
      simp at hts
    have h3 : rowById (processScheduledReminders (fun _ => true) now2 db1).1 r.id
        = some { r with status := 1 } := by
      unfold processScheduledReminders
      rw [sweepLoopAbort_pres fireTask fireTask_pres fireTask_mono _ _ db1 r.id
        (lt_of_lt_of_le hfresh hmono1) hL2]
      exact h1
    have h4 : ∀ a ∈ (processScheduledReminders (fun _ => true) now2 db1).2, a.tid ≠ r.id := by
      intro a ha he
      unfold processScheduledReminders at ha
      obtain ⟨t, htL, rfl⟩ := sweepLoopAbort_acts_source fireTask _ _ db1 a ha
      exact hL2 t htL he
    exact ⟨h1, h2, h3, h4⟩
  · have hsub1 : List.Sublist (dueQuery now1 db) db.rows := dueQuery_sublist now1 db
    have hnodup1 := nodup_ids_of_sublist _ db hwf hsub1
    have hrL1 : r ∈ dueQuery now1 db := (mem_dueQuery now1 db r).mpr ⟨hr, hstatus, hpos, hdue⟩
    have hfresh : r.id < db.nextId := hwf.2 r hr
    have hrow : rowById db r.id = some r := rowById_of_mem db hwf r hr
    have heff : ∀ db2 : DB, rowById db2 r.id = some r → r.id < db2.nextId →
        rowById (fireMain db2 r) r.id = some { r with status := 1 } :=
      fun db2 hrow2 _ => fireMain_effect_oneshot db2 r hcron hrow2
    have h1 : rowById (scheduledMain (fun _ => true) now1 db).1 r.id
        = some { r with status := 1 } := by
      unfold scheduledMain
      exact sweepLoopAbort_effect fireMain fireMain_pres fireMain_mono _ r _ heff
        _ db (fun _ _ => rfl) hnodup1 hrL1 hfresh hrow
    have h2 : (((scheduledMain (fun _ => true) now1 db).2).filter
        (fun a => a.tid == r.id)).length = 1 := by
      unfold scheduledMain
      rw [sweepLoopAbort_acts_all_ok fireMain _ _ db (fun _ _ => rfl)]
      rw [List.filter_map]
      have hcomp : ((fun (a : Notification) => a.tid == r.id) ∘
          (fun (t : Todo) => (⟨t.id, t.userId, t.task⟩ : Notification)))
          = (fun (t : Todo) => t.id == r.id) := rfl
      rw [hcomp, filter_id_singleton r _ hnodup1 hrL1]
      rfl
    have hwf1 : dbWF (scheduledMain (fun _ => true) now1 db).1 := by
      unfold scheduledMain
      exact sweepLoopAbort_wf fireMain fireMain_wf _ _ db hwf
    have hmono1 : db.nextId ≤ ((scheduledMain (fun _ => true) now1 db).1).nextId := by
      unfold scheduledMain
      exact sweepLoopAbort_mono fireMain fireMain_mono _ _ db
    set db1 := (scheduledMain (fun _ => true) now1 db).1 with hdb1
    have hkey : ∀ t : Todo, t ∈ db1.rows → t.id = r.id → t = { r with status := 1 } := by
      intro t ht hid
      have hsome := rowById_of_mem db1 hwf1 t ht
      rw [hid, h1] at hsome
      exact (Option.some_inj.mp hsome).symm
    have hL2 : ∀ t ∈ dueQuery now2 db1, t.id ≠ r.id := by
      intro t ht he
      obtain ⟨htrows, hts, _, _⟩ := (mem_dueQuery now2 db1 t).mp ht
      have hteq := hkey t htrows he
      rw [hteq] at hts
      simp at hts
    have h3 : rowById (scheduledMain (fun _ => true) now2 db1).1 r.id
        = some { r with status := 1 } := by
      unfold scheduledMain
      rw [sweepLoopAbort_pres fireMain fireMain_pres fireMain_mono _ _ db1 r.id
        (lt_of_lt_of_le hfresh hmono1) hL2]
      exact h1
    have h4 : ∀ a ∈ (scheduledMain (fun _ => true) now2 db1).2, a.tid ≠ r.id := by
      intro a ha he
      unfold scheduledMain at ha
      obtain ⟨t, htL, rfl⟩ := sweepLoopAbort_acts_source fireMain _ _ db1 a ha
      exact hL2 t htL he
    exact ⟨h1, h2, h3, h4⟩

theorem oneShot_lifecycle_witness :
    rowById (processScheduledReminders (fun _ => true) 100
        ⟨[⟨1, "u", "todo", 100, none, 0, 0⟩], 2⟩).1 1
      = some ⟨1, "u", "todo", 100, none, 0, 1⟩ :=
  (oneShot_lifecycle ⟨[⟨1, "u", "todo", 100, none, 0, 0⟩], 2⟩
      ⟨1, "u", "todo", 100, none, 0, 0⟩ 100 200
      ⟨by decide, by decide⟩ (by decide) rfl rfl (by decide) (by decide)).1.1

/-- C9 (counterexample): in the rewritten task sweep the whole loop sits in
one try/catch, so one failed delivery aborts the rest of the tick: with two
due one-shot reminders and delivery failing on the first, no notification is
emitted at all and the second reminder is left unfired (still status 0). -/
theorem task_sweep_failure_blocks_counterexample :
    (processScheduledReminders (fun t => !(t.id == 1)) 100
        ⟨[⟨1, "u1", "pay rent", 100, none, 0, 0⟩,
          ⟨2, "u2", "call mom", 100, none, 0, 0⟩], 3⟩).2 = [] ∧
    rowById (processScheduledReminders (fun t => !(t.id == 1)) 100
        ⟨[⟨1, "u1", "pay rent", 100, none, 0, 0⟩,
          ⟨2, "u2", "call mom", 100, none, 0, 0⟩], 3⟩).1 2
      = some ⟨2, "u2", "call mom", 100, none, 0, 0⟩ := by
  decide

/-- C9 (amended): only the other sweep of the rewritten worker (the
`scheduled` handler with a per-reminder try/catch) isolates delivery
failure: every due reminder whose own delivery succeeds is notified,
regardless of failures on any other reminder in the same tick. -/
theorem v2_sweep_failure_isolated
    (db : DB) (r : Todo) (now : Int) (ok : Todo → Bool)
    (hr : r ∈ db.rows) (hstatus : r.status = 0) (hall : r.allDay = 0)
    (hpos : 0 < r.remindAt) (hdue : r.remindAt ≤ now) (hok : ok r = true) :
    (⟨r.id, r.userId, r.task⟩ : Notification) ∈ (scheduledV2 ok now db).2 := by
  unfold scheduledV2
  exact sweepLoopSkip_notified fireV2 ok _ db r
    ((mem_dueQueryV2 now db r).mpr ⟨hr, hstatus, hall, hpos, hdue⟩) hok

theorem v2_sweep_failure_isolated_witness :
    (⟨2, "u2", "call mom"⟩ : Notification)
      ∈ (scheduledV2 (fun t => !(t.id == 1)) 100
          ⟨[⟨1, "u1", "pay rent", 100, none, 0, 0⟩,
            ⟨2, "u2", "call mom", 100, none, 0, 0⟩], 3⟩).2 :=
  v2_sweep_failure_isolated
    ⟨[⟨1, "u1", "pay rent", 100, none, 0, 0⟩, ⟨2, "u2", "call mom", 100, none, 0, 0⟩], 3⟩
    ⟨2, "u2", "call mom", 100, none, 0, 0⟩ 100 (fun t => !(t.id == 1))
    (by decide) rfl rfl (by decide) (by decide) (by decide)
